import Mathlib

/-!
Verification of the Minimalist-text-editor repository: a shallow Lean
embedding of its storage layer (`src/storage.js`), PKCE utilities
(`src/pkce.js`), export helpers (`src/export.js`), OAuth cloud sync
(`src/cloud.js`) and the editor's auto-save logic (`src/editor.js`),
together with theorems settling the specification's claims.
-/

/-! ## JavaScript primitives -/

/-- JS truthiness of a nullable string (`null`, `undefined` and `""` are
falsy; every other string is truthy). -/
def truthy : Option String → Bool
  | none => false
  | some s => s != ""

/-- A JS `Error`-like value: a `name` (e.g. `"QuotaExceededError"`) and a
`message`. -/
structure JsError where
  name : String
  message : String
deriving DecidableEq

/-! ## Web Storage model (`sessionStorage`)

`sessionStorage` is modelled as a partial map from keys to string values. -/

def SessionStore := String → Option String

/-- The empty session store (a fresh browser session). -/
def SessionStore.empty : SessionStore := fun _ => none

/-- `sessionStorage.setItem(k, v)`. -/
def SessionStore.setItem (ss : SessionStore) (k v : String) : SessionStore :=
  fun k2 => if k2 = k then some v else ss k2

/-- `sessionStorage.getItem(k)`: the stored value, or `null`. -/
def SessionStore.getItem (ss : SessionStore) (k : String) : Option String := ss k

/-- `sessionStorage.removeItem(k)`. -/
def SessionStore.removeItem (ss : SessionStore) (k : String) : SessionStore :=
  fun k2 => if k2 = k then none else ss k2

/-! ## PKCE verifier store (`src/pkce.js`, `storeCodeVerifier` / `getCodeVerifier`) -/

/-- `storeCodeVerifier(verifier)`: stores the verifier under the fixed key
`oauth_code_verifier` (src/pkce.js lines 55-57). -/
def storeCodeVerifier (verifier : String) (ss : SessionStore) : SessionStore :=
  ss.setItem "oauth_code_verifier" verifier

/-- `getCodeVerifier()`: reads the stored verifier and, when it is truthy,
removes it; returns the read value (src/pkce.js lines 63-69). The result is
the returned value paired with the session store after the call. -/
def getCodeVerifier (ss : SessionStore) : Option String × SessionStore :=
  let verifier := ss.getItem "oauth_code_verifier"
  if truthy verifier then (verifier, ss.removeItem "oauth_code_verifier")
  else (verifier, ss)

/-! ## Code verifier generation (`src/pkce.js`, `generateCodeVerifier`) -/

/-- The verifier alphabet of `generateCodeVerifier`
(src/pkce.js line 12). -/
def verifierCharset : List Char :=
  "ABCDEFGHIJKLMNOPQRSTUVWXYZabcdefghijklmnopqrstuvwxyz0123456789-._~".toList

/-- `generateCodeVerifier(length)`: each of the `length` random bytes
(modelled by `rand : Nat → Nat`, the `i`-th entry of the
`crypto.getRandomValues` array) indexes the charset modulo its length
(src/pkce.js lines 11-22). -/
def generateCodeVerifier (length : Nat) (rand : Nat → Nat) : String :=
  String.mk ((List.range length).map
    (fun i => verifierCharset.getD (rand i % verifierCharset.length) 'A'))

/-- The default `length` parameter of `generateCodeVerifier`
(src/pkce.js line 11). -/
def defaultVerifierLength : Nat := 128

/-- A character of the RFC 7636 unreserved set `[A-Za-z0-9-._~]`. -/
def isUnreservedChar (c : Char) : Bool :=
  ('A' ≤ c && c ≤ 'Z') || ('a' ≤ c && c ≤ 'z') || ('0' ≤ c && c ≤ '9') ||
    c == '-' || c == '.' || c == '_' || c == '~'

/-! ## IndexedDB object-store model (`src/storage.js`)

The single object store `documents` has key path `id`; it is modelled as an
association list from keys to records. -/

/-- A record of the `documents` object store: `{ id, content, updatedAt }`
(src/storage.js lines 46-50). -/
structure DocRecord where
  id : String
  content : String
  updatedAt : String
deriving DecidableEq

abbrev ObjectStore := List (String × DocRecord)

/-- `store.put(data)` with key path `id`: inserts or replaces the record
whose key is `data.id`. -/
def ObjectStore.put (os : ObjectStore) (r : DocRecord) : ObjectStore :=
  (r.id, r) :: os.filter (fun p => p.1 != r.id)

/-- `store.get(k)`. -/
def ObjectStore.get (os : ObjectStore) (k : String) : Option DocRecord :=
  (os.find? (fun p => p.1 == k)).map Prod.snd

/-- `Storage.save(content)`: puts the single record under the fixed id
`current-document` with the given content and timestamp
(src/storage.js lines 40-57). -/
def Storage.save (content updatedAt : String) (os : ObjectStore) : ObjectStore :=
  os.put { id := "current-document", content := content, updatedAt := updatedAt }

/-- `Storage.clear()`: clears the object store (src/storage.js lines 82-93). -/
def Storage.clearStore (_os : ObjectStore) : ObjectStore := []

/-- `Storage.load()`: resolves with the stored record's content, or with `''`
when no record exists under `current-document`; rejects only when the
underlying request errors (src/storage.js lines 63-77). -/
def Storage.load (os : ObjectStore) : Except JsError String :=
  match os.get "current-document" with
  | some r => Except.ok r.content
  | none => Except.ok ""

/-- The mutating operations `Storage` exposes on the object store. -/
inductive StorageOp where
  | save (content updatedAt : String)
  | clear
deriving DecidableEq

/-- Apply one storage operation. -/
def applyStorageOp (os : ObjectStore) : StorageOp → ObjectStore
  | .save c t => Storage.save c t os
  | .clear => Storage.clearStore os

/-- Run a sequence of storage operations from the freshly created (empty)
object store. -/
def runStorageOps (ops : List StorageOp) : ObjectStore :=
  ops.foldl applyStorageOp []

/-! ## Export model (`src/export.js`)

`stripHTML` replaces every match of the regex `/<br\s*\/?>/gi` by a newline
and then parses the result into a DOM node and reads its `textContent`.
The character class `\s` of JS regexes and the DOM text extraction
(markup between `<` and `>` is not text) are modelled below. -/

/-- A character matched by the JS regex class `\s`. -/
def isJsSpace (c : Char) : Bool :=
  c == ' ' || c == '\t' || c == '\n' || c == '\r' ||
    c.toNat == 0x0b || c.toNat == 0x0c || c.toNat == 0xa0 || c.toNat == 0x1680 ||
    (0x2000 ≤ c.toNat && c.toNat ≤ 0x200a) ||
    c.toNat == 0x2028 || c.toNat == 0x2029 || c.toNat == 0x202f ||
    c.toNat == 0x205f || c.toNat == 0x3000 || c.toNat == 0xfeff

/-- After the literal `<br`, the regex `/<br\s*\/?>/` consumes `\s*`, an
optional `/`, then `>`; returns the remaining input on a match. -/
def matchBrTail : List Char → Option (List Char)
  | [] => none
  | c :: rest =>
    if isJsSpace c then matchBrTail rest
    else if c == '/' then
      if rest.head? == some '>' then some rest.tail else none
    else if c == '>' then some rest
    else none

/-- Match the regex `/<br\s*\/?>/i` at the head of the input; returns the
remaining input on a match. -/
def matchBr : List Char → Option (List Char)
  | lt :: b :: r :: rest =>
    if lt == '<' && (b == 'b' || b == 'B') && (r == 'r' || r == 'R') then matchBrTail rest
    else none
  | _ => none

theorem matchBrTail_length : ∀ l r, matchBrTail l = some r → r.length < l.length
  | [], r, h => by simp [matchBrTail] at h
  | c :: rest, r, h => by
    unfold matchBrTail at h
    by_cases hs : isJsSpace c = true
    · rw [if_pos hs] at h
      exact Nat.lt_trans (matchBrTail_length rest r h) (Nat.lt_succ_self _)
    · rw [if_neg hs] at h
      by_cases hsl : (c == '/') = true
      · rw [if_pos hsl] at h
        by_cases hgt : (rest.head? == some '>') = true
        · rw [if_pos hgt] at h
          cases h
          have htl : rest.tail.length ≤ rest.length := by cases rest <;> simp
          simp only [List.length_cons]
          omega
        · rw [if_neg hgt] at h
          exact absurd h Option.noConfusion
      · rw [if_neg hsl] at h
        by_cases hgt : (c == '>') = true
        · rw [if_pos hgt] at h
          cases h
          exact Nat.lt_succ_self _
        · rw [if_neg hgt] at h
          exact absurd h Option.noConfusion

theorem matchBr_length : ∀ l r, matchBr l = some r → r.length < l.length := by
  intro l r h
  match l with
  | [] => simp [matchBr] at h
  | [a] => simp [matchBr] at h
  | [a, b] => simp [matchBr] at h
  | a :: b :: c :: rest =>
    simp only [matchBr] at h
    by_cases hc : (a == '<' && (b == 'b' || b == 'B') && (c == 'r' || c == 'R')) = true
    · rw [if_pos hc] at h
      have := matchBrTail_length rest r h
      simp only [List.length_cons]
      omega
    · rw [if_neg hc] at h
      exact absurd h Option.noConfusion

/-- `html.replace(/<br\s*\/?>/gi, '\n')` over the whole input: leftmost,
non-overlapping matches are each replaced by `'\n'` and scanning resumes
after the replacement (src/export.js lines 43-44). -/
def replaceBr (l : List Char) : List Char :=
  match l with
  | [] => []
  | c :: rest =>
    match h : matchBr (c :: rest) with
    | some rest2 => '\n' :: replaceBr rest2
    | none => c :: replaceBr rest
termination_by l.length
decreasing_by
  · exact matchBr_length _ _ h
  · simp

/-- DOM text extraction: `div.innerHTML = s; div.textContent` keeps the
character data and drops the markup between `<` and `>`. The flag records
whether the scanner is inside a tag. -/
def domTextAux : Bool → List Char → List Char
  | _, [] => []
  | false, c :: rest => if c == '<' then domTextAux true rest else c :: domTextAux false rest
  | true, c :: rest => if c == '>' then domTextAux false rest else domTextAux true rest

/-- `Export.stripHTML(html)`: `<br>` tags become newlines, then the result
is parsed and its text content returned (src/export.js lines 38-48). -/
def Export.stripHTML (html : String) : String :=
  String.mk (domTextAux false (replaceBr html.toList))

/-- The downloadable file produced by `downloadBlob`: a named blob with a
MIME type and content. -/
structure DownloadedFile where
  name : String
  mimeType : String
  content : String
deriving DecidableEq

/-- `Export.exportAsTXT(content, filename)`: strips HTML from the content
and downloads it as a `text/plain` blob (src/export.js lines 12-18). -/
def Export.exportAsTXT (content : String) (filename : String) : DownloadedFile :=
  { name := filename, mimeType := "text/plain", content := Export.stripHTML content }

/-! ## OAuth callback dispatch (`src/cloud.js`, `handleOAuthCallback`) -/

/-- The query parameters `handleOAuthCallback` reads from the callback URL
(each is `null` when absent, the empty string when present without a
value). -/
structure CallbackParams where
  code : Option String
  state : Option String
  error : Option String
deriving DecidableEq

/-- The externally visible effect of `handleOAuthCallback`: which token
exchange (if any) is started. -/
inductive OAuthAction where
  | noExchange
  | exchangeGoogle (code : String)
  | exchangeDropbox (code : String)
deriving DecidableEq

/-- `CloudSync.handleOAuthCallback()`: on a truthy `error` parameter it
alerts and returns; otherwise, when `code` and `state` are truthy, it
dispatches on `state === 'google'` / `state === 'dropbox'`
(src/cloud.js lines 32-51). -/
def handleOAuthCallback (p : CallbackParams) : OAuthAction :=
  if truthy p.error then .noExchange
  else if truthy p.code && truthy p.state then
    if p.state == some "google" then .exchangeGoogle (p.code.getD "")
    else if p.state == some "dropbox" then .exchangeDropbox (p.code.getD "")
    else .noExchange
  else .noExchange

/-! ## Editor save error handling (`src/editor.js`, `Editor.save`) -/

/-- The alert text of the quota branch of `Editor.save`
(src/editor.js line 211). -/
def quotaAlertMsg : String := "Storage quota exceeded. Please clear some space."

/-- The editor-visible state `Editor.save` touches: the editable content,
the save-status label and the list of alert dialogs shown so far. -/
structure EditorView where
  content : String
  statusText : String
  statusSuccess : Bool
  alerts : List String
deriving DecidableEq

/-- `Editor.save()` after `storage.save` settled: on success the status
label reads `Saved`; on rejection the error is caught locally, the label
reads `Save failed`, and an alert is shown exactly for
`QuotaExceededError` (src/editor.js lines 200-214). -/
def Editor.save (st : EditorView) (storageResult : Except JsError Unit) : EditorView :=
  match storageResult with
  | .ok _ => { st with statusText := "Saved", statusSuccess := true }
  | .error e =>
    let st1 := { st with statusText := "Save failed", statusSuccess := false }
    if e.name == "QuotaExceededError" then { st1 with alerts := st1.alerts ++ [quotaAlertMsg] }
    else st1

/-! ## Cloud token storage (`src/cloud.js`) -/

/-- The JSON body of a successful token-endpoint response, as read by the
exchange functions: `access_token`, optional `refresh_token`, optional
`expires_in`. -/
structure TokenResponse where
  access_token : String
  refresh_token : Option String
  expires_in : Option Nat
deriving DecidableEq

/-- Session-storage effect of a successful `exchangeGoogleToken`: stores
the access token under `google_access_token` and, when the response's
refresh token is truthy, the refresh token under `google_refresh_token`
(src/cloud.js lines 190-198). -/
def exchangeGoogleTokenStore (resp : TokenResponse) (ss : SessionStore) : SessionStore :=
  if truthy resp.refresh_token then
    (ss.setItem "google_access_token" resp.access_token).setItem "google_refresh_token"
      (resp.refresh_token.getD "")
  else ss.setItem "google_access_token" resp.access_token

/-- Session-storage effect of a successful `exchangeDropboxToken`: stores
only the access token under `dropbox_access_token`
(src/cloud.js lines 292-296). -/
def exchangeDropboxTokenStore (resp : TokenResponse) (ss : SessionStore) : SessionStore :=
  ss.setItem "dropbox_access_token" resp.access_token

/-- `CloudSync.loadTokens()`: the three token fields read from session
storage (src/cloud.js lines 67-72). -/
def loadTokens (ss : SessionStore) : Option String × Option String × Option String :=
  (ss.getItem "google_access_token", ss.getItem "google_refresh_token",
    ss.getItem "dropbox_access_token")

/-! ## PKCE code challenge (`src/pkce.js`, `generateCodeChallenge`)

`generateCodeChallenge` UTF-8-encodes the verifier, digests it (the browser
primitive `crypto.subtle.digest('SHA-256', ...)` is modelled as an abstract
byte-list function), base64-encodes the digest bytes with `btoa`, and then
rewrites `+` to `-`, `/` to `_` and deletes `=`. -/

/-- UTF-8 bytes of a string (the effect of `new TextEncoder().encode(s)`). -/
def utf8Bytes (s : String) : List Nat :=
  s.toUTF8.toList.map (fun b => b.toNat)

/-- The standard base64 alphabet used by `btoa`. -/
def base64Table : List Char :=
  "ABCDEFGHIJKLMNOPQRSTUVWXYZabcdefghijklmnopqrstuvwxyz0123456789+/".toList

/-- The base64url alphabet of RFC 4648 section 5. -/
def base64urlTable : List Char :=
  "ABCDEFGHIJKLMNOPQRSTUVWXYZabcdefghijklmnopqrstuvwxyz0123456789-_".toList

/-- Character `n` of the standard base64 alphabet. -/
def b64c (n : Nat) : Char := base64Table.getD n '?'

/-- Character `n` of the base64url alphabet. -/
def b64u (n : Nat) : Char := base64urlTable.getD n '?'

/-- `btoa` on a byte sequence (the code builds the binary string with
`String.fromCharCode(...new Uint8Array(digest))` first): standard base64
with `=` padding, processing 3-byte groups into 4 sextets. -/
def btoaBytes : List Nat → List Char
  | [] => []
  | [b1] => [b64c (b1 / 4), b64c (b1 % 4 * 16), '=', '=']
  | [b1, b2] => [b64c (b1 / 4), b64c (b1 % 4 * 16 + b2 / 16), b64c (b2 % 16 * 4), '=']
  | b1 :: b2 :: b3 :: rest =>
    b64c (b1 / 4) :: b64c (b1 % 4 * 16 + b2 / 16) :: b64c (b2 % 16 * 4 + b3 / 64) ::
      b64c (b3 % 64) :: btoaBytes rest

/-- `.replace(/\+/g, '-')` (src/pkce.js line 36). -/
def subPlus (c : Char) : Char := if c == '+' then '-' else c

/-- `.replace(/\//g, '_')` (src/pkce.js line 37). -/
def subSlash (c : Char) : Char := if c == '/' then '_' else c

/-- `.replace(/=/g, '')` (src/pkce.js line 38). -/
def dropEq (l : List Char) : List Char := l.filter (fun c => c != '=')

/-- `generateCodeChallenge(verifier)` with the SHA-256 primitive abstracted
as `digest` (src/pkce.js lines 29-39). -/
def generateCodeChallenge (digest : List Nat → List Nat) (verifier : String) : String :=
  String.mk (dropEq (List.map subSlash (List.map subPlus (btoaBytes (digest (utf8Bytes verifier))))))

/-- Modelled from the spec: the base64url encoding named by the claim,
written directly against the RFC 4648 section 5 alphabet with no padding,
to be compared with the code's `btoa`-plus-replacements pipeline. -/
def base64urlSpec : List Nat → List Char
  | [] => []
  | [b1] => [b64u (b1 / 4), b64u (b1 % 4 * 16)]
  | [b1, b2] => [b64u (b1 / 4), b64u (b1 % 4 * 16 + b2 / 16), b64u (b2 % 16 * 4)]
  | b1 :: b2 :: b3 :: rest =>
    b64u (b1 / 4) :: b64u (b1 % 4 * 16 + b2 / 16) :: b64u (b2 % 16 * 4 + b3 / 64) ::
      b64u (b3 % 64) :: base64urlSpec rest

/-! ## Auto-save debounce (`src/editor.js`, `handleInput`)

The browser timer queue is modelled explicitly: each `setTimeout` returns a
fresh id and registers a (id, fire-time) pair; `clearTimeout` removes the
pair with the stored id; a pending save timer fires once the clock passes
its fire time. `saves` records the times at which the debounced save ran. -/

/-- The fixed auto-save debounce delay (src/editor.js line 13). -/
def saveDebounceDelay : Nat := 500

/-- Timer-queue state of the editor: pending save timers (id, fire time),
the id held in `saveDebounceTimer`, the next fresh timer id, and the times
at which the debounced save has fired. -/
structure EditorTimers where
  timers : List (Nat × Nat)
  cur : Option Nat
  nextId : Nat
  saves : List Nat
deriving DecidableEq

/-- Fire every pending timer whose fire time precedes the current time `t`
(the event loop runs due timer callbacks before the next input event). -/
def fireDue (t : Nat) (st : EditorTimers) : EditorTimers :=
  { st with
    saves := st.saves ++ (st.timers.filter (fun p => decide (p.2 < t))).map Prod.snd,
    timers := st.timers.filter (fun p => !decide (p.2 < t)) }

/-- `Editor.handleInput()` at clock time `t`: due timers have fired, then
`clearTimeout(this.saveDebounceTimer)` removes the stored timer and
`setTimeout(..., 500)` registers a fresh save timer
(src/editor.js lines 109-121). -/
def handleInput (st : EditorTimers) (t : Nat) : EditorTimers :=
  let st1 := fireDue t st
  { st1 with
    timers := st1.timers.filter (fun p => !(st1.cur == some p.1)) ++
      [(st1.nextId, t + saveDebounceDelay)],
    cur := some st1.nextId,
    nextId := st1.nextId + 1 }

/-- The editor's initial timer state: no timer pending,
`saveDebounceTimer = null`. -/
def initTimers : EditorTimers := ⟨[], none, 0, []⟩

/-- Process a sequence of input events at the given clock times. -/
def processInputs (ts : List Nat) : EditorTimers := ts.foldl handleInput initTimers

/-- The times at which the debounced save runs for a sequence of input
times: input `t1` leads to a save at `t1 + 500` exactly when the next
input comes later than that. -/
def firedTimes : List Nat → List Nat
  | [] => []
  | [_] => []
  | t1 :: t2 :: rest =>
    (if t1 + saveDebounceDelay < t2 then [t1 + saveDebounceDelay] else []) ++
      firedTimes (t2 :: rest)

/-! ## Helper lemmas -/

theorem find?_filter_of (l : List (String × DocRecord)) (p q : String × DocRecord → Bool)
    (h : ∀ x, q x = false → p x = false) :
    (l.filter q).find? p = l.find? p := by
  induction l with
  | nil => rfl
  | cons a l ih =>
    by_cases hq : q a = true
    · rw [List.filter_cons_of_pos hq]
      by_cases hp : p a = true
      · rw [List.find?_cons_of_pos _ hp, List.find?_cons_of_pos _ hp]
      · rw [List.find?_cons_of_neg _ (by simpa using hp),
          List.find?_cons_of_neg _ (by simpa using hp)]
        exact ih
    · rw [List.filter_cons_of_neg (by simpa using hq),
        List.find?_cons_of_neg _ (by simp [h a (by simpa using hq)])]
      exact ih

theorem getItem_setItem_self (ss : SessionStore) (k v : String) :
    (ss.setItem k v).getItem k = some v := by
  simp [SessionStore.setItem, SessionStore.getItem]

theorem getItem_setItem_ne (ss : SessionStore) (k v k2 : String) (h : k2 ≠ k) :
    (ss.setItem k v).getItem k2 = ss.getItem k2 := by
  simp [SessionStore.setItem, SessionStore.getItem, h]

theorem getItem_removeItem_self (ss : SessionStore) (k : String) :
    (ss.removeItem k).getItem k = none := by
  simp [SessionStore.removeItem, SessionStore.getItem]

/-- Keys present in the object store after any operation sequence are all
`current-document`. -/
theorem runStorageOps_keys (ops : List StorageOp) :
    ∀ p ∈ runStorageOps ops, p.1 = "current-document" := by
  have main : ∀ (ops : List StorageOp) (os : ObjectStore),
      (∀ p ∈ os, p.1 = "current-document") →
      ∀ p ∈ ops.foldl applyStorageOp os, p.1 = "current-document" := by
    intro ops
    induction ops with
    | nil => intro os h; exact h
    | cons op rest ih =>
      intro os h
      refine ih (applyStorageOp os op) ?_
      intro p hp
      cases op with
      | clear => simp [applyStorageOp, Storage.clearStore] at hp
      | save c t =>
        simp only [applyStorageOp, Storage.save, ObjectStore.put, List.mem_cons] at hp
        rcases hp with hp | hp
        · rw [hp]
        · exact h p (List.mem_of_mem_filter hp)
  intro p hp
  exact main ops [] (by intro p hp; simp at hp) p hp

/-- A store whose sole key is `current-document` is emptied by the filter
inside `put`. -/
theorem filter_eq_nil_of_keys (os : ObjectStore)
    (h : ∀ p ∈ os, p.1 = "current-document") :
    os.filter (fun p => p.1 != "current-document") = [] := by
  induction os with
  | nil => rfl
  | cons a l ih =>
    rw [List.filter_cons_of_neg (by simp [h a (by simp)])]
    exact ih (fun p hp => h p (by simp [hp]))

theorem runStorageOps_length (ops : List StorageOp) : (runStorageOps ops).length ≤ 1 := by
  have main : ∀ (ops : List StorageOp) (os : ObjectStore),
      (∀ p ∈ os, p.1 = "current-document") → os.length ≤ 1 →
      (ops.foldl applyStorageOp os).length ≤ 1 := by
    intro ops
    induction ops with
    | nil => intro os _ hl; simpa using hl
    | cons op rest ih =>
      intro os h hl
      have hkeys : ∀ p ∈ applyStorageOp os op, p.1 = "current-document" := by
        intro p hp
        cases op with
        | clear => simp [applyStorageOp, Storage.clearStore] at hp
        | save c t =>
          simp only [applyStorageOp, Storage.save, ObjectStore.put, List.mem_cons] at hp
          rcases hp with hp | hp
          · rw [hp]
          · exact h p (List.mem_of_mem_filter hp)
      have hlen : (applyStorageOp os op).length ≤ 1 := by
        cases op with
        | clear => simp [applyStorageOp, Storage.clearStore]
        | save c t =>
          simp only [applyStorageOp, Storage.save, ObjectStore.put]
          rw [filter_eq_nil_of_keys os h]
          simp
      exact ih _ hkeys hlen
  exact main ops [] (by intro p hp; simp at hp) (by simp)

/-- C3: `Storage.save(content)` writes exactly one record, under the fixed
key `current-document`, holding that id, the content and a timestamp; it
leaves every other key unchanged, successive saves overwrite the same
record, and any sequence of storage operations leaves at most one record
in the store. -/
theorem claim_C3 (content updatedAt : String) (os : ObjectStore) (k : String)
    (c2 t2 : String) (ops : List StorageOp) :
    (Storage.save content updatedAt os).get "current-document" =
      some ⟨"current-document", content, updatedAt⟩ ∧
    (k ≠ "current-document" → (Storage.save content updatedAt os).get k = os.get k) ∧
    Storage.save c2 t2 (Storage.save content updatedAt os) = Storage.save c2 t2 os ∧
    (runStorageOps ops).length ≤ 1 := by
  refine ⟨?_, ?_, ?_, runStorageOps_length ops⟩
  · simp only [Storage.save, ObjectStore.put, ObjectStore.get]
    rw [List.find?_cons_of_pos _ (by simp)]
    rfl
  · intro h
    simp only [Storage.save, ObjectStore.put, ObjectStore.get]
    rw [List.find?_cons_of_neg _ (by simp [beq_iff_eq]; exact Ne.symm h)]
    rw [find?_filter_of]
    intro x hx
    have : x.1 = "current-document" := by simpa using hx
    simp [this, beq_iff_eq]
    exact Ne.symm h
  · simp only [Storage.save, ObjectStore.put]
    rw [List.filter_cons_of_neg (by simp)]
    simp [List.filter_filter]

theorem claim_C3_witness :
    ObjectStore.get (Storage.save "hello" "2026-10-11" []) "other" = ObjectStore.get [] "other" ∧
    (runStorageOps [StorageOp.save "a" "t1", StorageOp.save "b" "t2"]).length ≤ 1 :=
  ⟨(claim_C3 "hello" "2026-10-11" [] "other" "x" "y" []).2.1 (by decide),
    (claim_C3 "c" "t" [] "k" "x" "y" [StorageOp.save "a" "t1", StorageOp.save "b" "t2"]).2.2.2⟩

/-- C10: `Storage.load()` on a store holding no record under
`current-document` resolves with the empty string; it neither rejects nor
yields an undefined value. -/
theorem claim_C10 (os : ObjectStore) (h : os.get "current-document" = none) :
    Storage.load os = Except.ok "" := by
  unfold Storage.load
  rw [h]

theorem claim_C10_witness : Storage.load [] = Except.ok "" :=
  claim_C10 [] (by decide)

/-- C8 as stated is false: for the empty-string verifier, `getCodeVerifier`
returns the falsy stored value without removing it, so a second call does
not return `null`. -/
theorem claim_C8_counterexample :
    (getCodeVerifier (getCodeVerifier (storeCodeVerifier "" SessionStore.empty)).2).1 ≠ none := by
  decide

/-- C8 (amended to non-empty verifiers): after `storeCodeVerifier(v)` with
`v ≠ ""`, the first `getCodeVerifier()` returns `v` and removes the key,
and a second call with no intervening store returns `null`. -/
theorem claim_C8 (v : String) (ss : SessionStore) (hv : v ≠ "") :
    (getCodeVerifier (storeCodeVerifier v ss)).1 = some v ∧
    ((getCodeVerifier (storeCodeVerifier v ss)).2).getItem "oauth_code_verifier" = none ∧
    (getCodeVerifier ((getCodeVerifier (storeCodeVerifier v ss)).2)).1 = none := by
  have hget : (storeCodeVerifier v ss).getItem "oauth_code_verifier" = some v :=
    getItem_setItem_self ss _ v
  have htv : truthy (some v) = true := by
    simp only [truthy]
    exact bne_iff_ne.mpr hv
  have h1 : getCodeVerifier (storeCodeVerifier v ss) =
      (some v, (storeCodeVerifier v ss).removeItem "oauth_code_verifier") := by
    unfold getCodeVerifier
    rw [hget]
    simp [htv]
  refine ⟨by rw [h1], ?_, ?_⟩
  · rw [h1]
    exact getItem_removeItem_self _ _
  · rw [h1]
    unfold getCodeVerifier
    rw [getItem_removeItem_self]
    simp [truthy]

theorem claim_C8_witness :
    (getCodeVerifier (storeCodeVerifier "verif123" SessionStore.empty)).1 = some "verif123" ∧
    (getCodeVerifier ((getCodeVerifier (storeCodeVerifier "verif123" SessionStore.empty)).2)).1 =
      none :=
  ⟨(claim_C8 "verif123" SessionStore.empty (by decide)).1,
    (claim_C8 "verif123" SessionStore.empty (by decide)).2.2⟩

theorem verifierCharset_length : verifierCharset.length = 66 := by decide

theorem verifierCharset_all_unreserved : verifierCharset.all isUnreservedChar = true := by decide

theorem verifierCharset_nodup : verifierCharset.Nodup := by decide

/-- C9: `generateCodeVerifier(n)` returns exactly `n` characters, each an
element of the 66-character unreserved charset (all of whose characters lie
in `[A-Za-z0-9-._~]`), and the default length is 128, within the RFC 7636
bounds of 43 to 128. -/
theorem claim_C9 (n : Nat) (rand : Nat → Nat) :
    (generateCodeVerifier n rand).length = n ∧
    (∀ c ∈ (generateCodeVerifier n rand).toList, c ∈ verifierCharset ∧ isUnreservedChar c = true) ∧
    verifierCharset.length = 66 ∧ verifierCharset.Nodup ∧
    verifierCharset.all isUnreservedChar = true ∧
    defaultVerifierLength = 128 ∧
    43 ≤ defaultVerifierLength ∧ defaultVerifierLength ≤ 128 := by
  refine ⟨?_, ?_, verifierCharset_length, verifierCharset_nodup,
    verifierCharset_all_unreserved, rfl, by decide, by decide⟩
  · simp [generateCodeVerifier, String.length]
  · intro c hc
    have hc2 : c ∈ (List.range n).map
        (fun i => verifierCharset.getD (rand i % verifierCharset.length) 'A') := hc
    rw [List.mem_map] at hc2
    obtain ⟨i, _, rfl⟩ := hc2
    have hpos : 0 < verifierCharset.length := by rw [verifierCharset_length]; decide
    have hlt : rand i % verifierCharset.length < verifierCharset.length :=
      Nat.mod_lt _ hpos
    have hmem : verifierCharset.getD (rand i % verifierCharset.length) 'A' ∈ verifierCharset := by
      rw [List.getD_eq_get _ _ hlt]
      exact List.get_mem _ _ hlt
    exact ⟨hmem, List.all_eq_true.mp verifierCharset_all_unreserved _ hmem⟩

theorem claim_C9_witness :
    (generateCodeVerifier 2 (fun i => i)).length = 2 ∧
    'A' ∈ verifierCharset ∧ isUnreservedChar 'A' = true :=
  ⟨(claim_C9 2 (fun i => i)).1,
    (claim_C9 2 (fun i => i)).2.1 'A' (by decide)⟩

/-- C5: when the storage save rejects, `Editor.save` catches the error
locally and returns normally (the model is a total function on the editor
view); the status label reads `Save failed`, an alert is appended exactly
when the error's name is `QuotaExceededError`, and the editor content is
unchanged. -/
theorem claim_C5 (st : EditorView) (e : JsError) :
    Editor.save st (Except.error e) =
      { st with
          statusText := "Save failed"
          statusSuccess := false
          alerts := st.alerts ++
            (if e.name = "QuotaExceededError" then [quotaAlertMsg] else []) } ∧
    (Editor.save st (Except.error e)).content = st.content := by
  have h1 : Editor.save st (Except.error e) =
      { st with
          statusText := "Save failed"
          statusSuccess := false
          alerts := st.alerts ++
            (if e.name = "QuotaExceededError" then [quotaAlertMsg] else []) } := by
    unfold Editor.save
    by_cases h : e.name = "QuotaExceededError"
    · simp [h]
    · simp [h]
  exact ⟨h1, by rw [h1]⟩

theorem truthy_some (s : String) : truthy (some s) = true ↔ s ≠ "" := by
  simp [truthy]

/-- C7: a successful Google exchange writes only the session keys
`google_access_token` and (when the response's refresh token is truthy)
`google_refresh_token`; a successful Dropbox exchange writes only
`dropbox_access_token`; neither result depends on the response's
`expires_in`, and `loadTokens` merely reads the three provider-prefixed
keys with no expiry validation. -/
theorem claim_C7 (resp : TokenResponse) (ss : SessionStore) (k : String) (e2 : Option Nat) :
    (exchangeGoogleTokenStore resp ss).getItem "google_access_token" = some resp.access_token ∧
    (k ≠ "google_access_token" → k ≠ "google_refresh_token" →
      (exchangeGoogleTokenStore resp ss).getItem k = ss.getItem k) ∧
    ((exchangeGoogleTokenStore resp ss).getItem "google_refresh_token" ≠
        ss.getItem "google_refresh_token" → truthy resp.refresh_token = true) ∧
    (truthy resp.refresh_token = true →
      (exchangeGoogleTokenStore resp ss).getItem "google_refresh_token" = resp.refresh_token) ∧
    (exchangeDropboxTokenStore resp ss).getItem "dropbox_access_token" = some resp.access_token ∧
    (k ≠ "dropbox_access_token" →
      (exchangeDropboxTokenStore resp ss).getItem k = ss.getItem k) ∧
    exchangeGoogleTokenStore { resp with expires_in := e2 } ss = exchangeGoogleTokenStore resp ss ∧
    exchangeDropboxTokenStore { resp with expires_in := e2 } ss = exchangeDropboxTokenStore resp ss ∧
    loadTokens ss = (ss.getItem "google_access_token", ss.getItem "google_refresh_token",
      ss.getItem "dropbox_access_token") := by
  unfold exchangeGoogleTokenStore exchangeDropboxTokenStore loadTokens
  refine ⟨?_, ?_, ?_, ?_, getItem_setItem_self _ _ _,
    fun h => getItem_setItem_ne _ _ _ _ h, rfl, rfl, rfl⟩
  · by_cases htr : truthy resp.refresh_token = true
    · rw [if_pos htr, getItem_setItem_ne _ _ _ _ (by decide), getItem_setItem_self]
    · rw [if_neg htr, getItem_setItem_self]
  · intro h1 h2
    by_cases htr : truthy resp.refresh_token = true
    · rw [if_pos htr, getItem_setItem_ne _ _ _ _ h2, getItem_setItem_ne _ _ _ _ h1]
    · rw [if_neg htr, getItem_setItem_ne _ _ _ _ h1]
  · intro hch
    by_contra htr
    rw [if_neg htr] at hch
    exact hch (getItem_setItem_ne _ _ _ _ (by decide))
  · intro htr
    rw [if_pos htr, getItem_setItem_self]
    cases hrf : resp.refresh_token with
    | none => rw [hrf] at htr; simp [truthy] at htr
    | some r => simp

theorem claim_C7_witness :
    (exchangeGoogleTokenStore ⟨"AT", some "RT", some 3600⟩ SessionStore.empty).getItem
      "google_access_token" = some "AT" ∧
    (exchangeGoogleTokenStore ⟨"AT", some "RT", some 3600⟩ SessionStore.empty).getItem
      "google_refresh_token" = some "RT" ∧
    (exchangeGoogleTokenStore ⟨"AT", some "RT", some 3600⟩ SessionStore.empty).getItem
      "other_key" = SessionStore.empty.getItem "other_key" :=
  ⟨(claim_C7 ⟨"AT", some "RT", some 3600⟩ SessionStore.empty "other_key" none).1,
    (claim_C7 ⟨"AT", some "RT", some 3600⟩ SessionStore.empty "other_key" none).2.2.2.1
      (by decide),
    (claim_C7 ⟨"AT", some "RT", some 3600⟩ SessionStore.empty "other_key" none).2.1
      (by decide) (by decide)⟩

/-- C4 as stated is false: an `error` parameter that is present with an
empty value (`?error=&code=...&state=google`) does not suppress the token
exchange, because the code tests JS truthiness, not presence. -/
theorem claim_C4_counterexample :
    (CallbackParams.mk (some "authcode") (some "google") (some "")).error ≠ none ∧
    handleOAuthCallback ⟨some "authcode", some "google", some ""⟩ =
      OAuthAction.exchangeGoogle "authcode" := by
  exact ⟨by decide, by decide⟩

/-- C4 (amended to truthy, i.e. present-and-non-empty, parameters): a
truthy `error` suppresses any exchange; the Google exchange runs on `code`
exactly when `error` is falsy, `code` is present and non-empty, and
`state = 'google'`; the Dropbox exchange exactly when `state = 'dropbox'`;
every other combination performs no exchange. -/
theorem claim_C4 (p : CallbackParams) (c : String) :
    (truthy p.error = true → handleOAuthCallback p = OAuthAction.noExchange) ∧
    (handleOAuthCallback p = OAuthAction.exchangeGoogle c ↔
      truthy p.error = false ∧ p.code = some c ∧ c ≠ "" ∧ p.state = some "google") ∧
    (handleOAuthCallback p = OAuthAction.exchangeDropbox c ↔
      truthy p.error = false ∧ p.code = some c ∧ c ≠ "" ∧ p.state = some "dropbox") := by
  obtain ⟨pc, pst, perr⟩ := p
  refine ⟨?_, ?_, ?_⟩
  · intro h
    unfold handleOAuthCallback
    rw [if_pos h]
  · constructor
    · intro h
      unfold handleOAuthCallback at h
      by_cases he : truthy perr = true
      · rw [if_pos he] at h
        exact absurd h (by simp)
      · have he2 : truthy perr = false := by simpa using he
        rw [if_neg he] at h
        by_cases hcs : (truthy pc && truthy pst) = true
        · rw [if_pos hcs] at h
          by_cases hg : (pst == some "google") = true
          · rw [if_pos hg] at h
            have hc : pc.getD "" = c := OAuthAction.exchangeGoogle.inj h
            have hpc : truthy pc = true := ((Bool.and_eq_true _ _).mp hcs).1
            cases pc with
            | none => simp [truthy] at hpc
            | some s =>
              have hs : s ≠ "" := (truthy_some s).mp hpc
              have hsc : s = c := by simpa using hc
              subst hsc
              exact ⟨he2, rfl, hs, beq_iff_eq.mp hg⟩
          · rw [if_neg hg] at h
            by_cases hd : (pst == some "dropbox") = true
            · rw [if_pos hd] at h
              exact absurd h (by simp)
            · rw [if_neg hd] at h
              exact absurd h (by simp)
        · rw [if_neg hcs] at h
          exact absurd h (by simp)
    · rintro ⟨he2, hpc, hc, hst⟩
      subst hpc
      subst hst
      unfold handleOAuthCallback
      rw [if_neg (by simp [he2]), if_pos (by simp [truthy_some, hc, truthy]),
        if_pos (by simp)]
      rfl
  · constructor
    · intro h
      unfold handleOAuthCallback at h
      by_cases he : truthy perr = true
      · rw [if_pos he] at h
        exact absurd h (by simp)
      · have he2 : truthy perr = false := by simpa using he
        rw [if_neg he] at h
        by_cases hcs : (truthy pc && truthy pst) = true
        · rw [if_pos hcs] at h
          by_cases hg : (pst == some "google") = true
          · rw [if_pos hg] at h
            exact absurd h (by simp)
          · rw [if_neg hg] at h
            by_cases hd : (pst == some "dropbox") = true
            · rw [if_pos hd] at h
              have hc : pc.getD "" = c := OAuthAction.exchangeDropbox.inj h
              have hpc : truthy pc = true := ((Bool.and_eq_true _ _).mp hcs).1
              cases pc with
              | none => simp [truthy] at hpc
              | some s =>
                have hs : s ≠ "" := (truthy_some s).mp hpc
                have hsc : s = c := by simpa using hc
                subst hsc
                exact ⟨he2, rfl, hs, beq_iff_eq.mp hd⟩
            · rw [if_neg hd] at h
              exact absurd h (by simp)
        · rw [if_neg hcs] at h
          exact absurd h (by simp)
    · rintro ⟨he2, hpc, hc, hst⟩
      subst hpc
      subst hst
      unfold handleOAuthCallback
      rw [if_neg (by simp [he2]), if_pos (by simp [truthy_some, hc, truthy]),
        if_neg (by simp), if_pos (by simp)]
      rfl

theorem claim_C4_witness :
    handleOAuthCallback ⟨some "thecode", some "google", none⟩ =
      OAuthAction.exchangeGoogle "thecode" ∧
    handleOAuthCallback ⟨some "thecode", some "dropbox", some ""⟩ =
      OAuthAction.exchangeDropbox "thecode" ∧
    handleOAuthCallback ⟨some "thecode", some "google", some "access_denied"⟩ =
      OAuthAction.noExchange :=
  ⟨(claim_C4 ⟨some "thecode", some "google", none⟩ "thecode").2.1.mpr
      ⟨by decide, rfl, by decide, rfl⟩,
    (claim_C4 ⟨some "thecode", some "dropbox", some ""⟩ "thecode").2.2.mpr
      ⟨by decide, rfl, by decide, rfl⟩,
    (claim_C4 ⟨some "thecode", some "google", some "access_denied"⟩ "thecode").1 (by decide)⟩

theorem matchBrTail_cons (c : Char) (l : List Char) :
    matchBrTail (c :: l) =
      if isJsSpace c then matchBrTail l
      else if c == '/' then (if l.head? == some '>' then some l.tail else none)
      else if c == '>' then some l
      else none := rfl

theorem matchBr_cons3 (a b r : Char) (l : List Char) :
    matchBr (a :: b :: r :: l) =
      if a == '<' && (b == 'b' || b == 'B') && (r == 'r' || r == 'R') then matchBrTail l
      else none := rfl

theorem domTextAux_false_cons (c : Char) (l : List Char) :
    domTextAux false (c :: l) =
      if c == '<' then domTextAux true l else c :: domTextAux false l := rfl

theorem domTextAux_true_cons (c : Char) (l : List Char) :
    domTextAux true (c :: l) =
      if c == '>' then domTextAux false l else domTextAux true l := rfl

theorem matchBrTail_ws_gt : ∀ (ws rest : List Char), ws.all isJsSpace = true →
    matchBrTail (ws ++ '>' :: rest) = some rest := by
  intro ws
  induction ws with
  | nil => intro rest _; rfl
  | cons w ws ih =>
    intro rest hall
    rw [List.all_cons, Bool.and_eq_true] at hall
    rw [List.cons_append, matchBrTail_cons, if_pos hall.1]
    exact ih rest hall.2

theorem matchBrTail_ws_slash : ∀ (ws rest : List Char), ws.all isJsSpace = true →
    matchBrTail (ws ++ '/' :: '>' :: rest) = some rest := by
  intro ws
  induction ws with
  | nil => intro rest _; rfl
  | cons w ws ih =>
    intro rest hall
    rw [List.all_cons, Bool.and_eq_true] at hall
    rw [List.cons_append, matchBrTail_cons, if_pos hall.1]
    exact ih rest hall.2

theorem matchBr_head (bc rc : Char) (l : List Char)
    (hb : (bc == 'b' || bc == 'B') = true) (hr : (rc == 'r' || rc == 'R') = true) :
    matchBr ('<' :: bc :: rc :: l) = matchBrTail l := by
  rw [matchBr_cons3]
  rw [if_pos (by simp [hb, hr])]

theorem replaceBr_cons_match (c : Char) (rest rest2 : List Char)
    (h : matchBr (c :: rest) = some rest2) :
    replaceBr (c :: rest) = '\n' :: replaceBr rest2 := by
  rw [replaceBr.eq_def]
  split
  · rename_i h2
    exact absurd h2 (by simp)
  · rename_i x c2 l2 h2
    injection h2 with hc hl
    subst hc
    subst hl
    split
    · rename_i r2 h3
      rw [h] at h3
      cases h3
      rfl
    · rename_i h3
      rw [h] at h3
      exact absurd h3 (by simp)

theorem domTextAux_tag : ∀ (tag rest : List Char), tag.all (fun ch => ch != '>') = true →
    domTextAux true (tag ++ '>' :: rest) = domTextAux false rest := by
  intro tag
  induction tag with
  | nil => intro rest _; rfl
  | cons t tag ih =>
    intro rest hall
    rw [List.all_cons, Bool.and_eq_true] at hall
    rw [List.cons_append, domTextAux_true_cons, if_neg (by simpa using hall.1)]
    exact ih rest hall.2

/-- C1: exporting as TXT produces a file whose content is exactly
`stripHTML` of the editor content: every `<br>` tag — case-insensitive,
with optional whitespace and optional self-closing slash — is replaced by
a newline, and the remaining markup (anything between `<` and `>`) is
removed while ordinary text characters are kept. -/
theorem claim_C1 (content filename : String) (bc rc ch : Char) (ws tag rest : List Char) :
    (Export.exportAsTXT content filename).content = Export.stripHTML content ∧
    (Export.exportAsTXT content filename).mimeType = "text/plain" ∧
    Export.stripHTML content = String.mk (domTextAux false (replaceBr content.toList)) ∧
    ((bc == 'b' || bc == 'B') = true → (rc == 'r' || rc == 'R') = true →
      ws.all isJsSpace = true →
      replaceBr ('<' :: bc :: rc :: (ws ++ '>' :: rest)) = '\n' :: replaceBr rest ∧
      replaceBr ('<' :: bc :: rc :: (ws ++ '/' :: '>' :: rest)) = '\n' :: replaceBr rest) ∧
    (tag.all (fun c => c != '>') = true →
      domTextAux false ('<' :: (tag ++ '>' :: rest)) = domTextAux false rest) ∧
    ((ch == '<') = false → domTextAux false (ch :: rest) = ch :: domTextAux false rest) := by
  refine ⟨rfl, rfl, rfl, ?_, ?_, ?_⟩
  · intro hb hr hws
    constructor
    · refine replaceBr_cons_match _ _ _ ?_
      rw [matchBr_head bc rc _ hb hr]
      exact matchBrTail_ws_gt ws rest hws
    · refine replaceBr_cons_match _ _ _ ?_
      rw [matchBr_head bc rc _ hb hr]
      exact matchBrTail_ws_slash ws rest hws
  · intro hall
    rw [domTextAux_false_cons, if_pos (by decide)]
    exact domTextAux_tag tag rest hall
  · intro hch
    rw [domTextAux_false_cons, if_neg (by simp [hch])]

theorem claim_C1_witness :
    replaceBr ('<' :: 'B' :: 'r' :: ([' '] ++ '>' :: ['x'])) = '\n' :: replaceBr ['x'] ∧
    domTextAux false ('<' :: (['i'] ++ '>' :: ['x'])) = domTextAux false ['x'] ∧
    (Export.exportAsTXT "hello world" "d.txt").content = Export.stripHTML "hello world" :=
  ⟨((claim_C1 "hello world" "d.txt" 'B' 'r' 'y' [' '] ['i'] ['x']).2.2.2.1
      (by decide) (by decide) (by decide)).1,
    (claim_C1 "hello world" "d.txt" 'B' 'r' 'y' [' '] ['i'] ['x']).2.2.2.2.1 (by decide),
    (claim_C1 "hello world" "d.txt" 'B' 'r' 'y' [' '] ['i'] ['x']).1⟩

theorem b64_char_facts : ∀ n, n < 64 →
    subSlash (subPlus (b64c n)) = b64u n ∧ (b64u n != '=') = true := by decide

theorem b64_pipeline_eq : ∀ (bytes : List Nat), (∀ b ∈ bytes, b < 256) →
    dropEq (List.map subSlash (List.map subPlus (btoaBytes bytes))) = base64urlSpec bytes
  | [], _ => rfl
  | [b1], h => by
    have hb1 : b1 < 256 := h b1 (by simp)
    have h1 : b1 / 4 < 64 := by omega
    have h2 : b1 % 4 * 16 < 64 := by omega
    show dropEq [subSlash (subPlus (b64c (b1 / 4))), subSlash (subPlus (b64c (b1 % 4 * 16))),
      subSlash (subPlus '='), subSlash (subPlus '=')] = [b64u (b1 / 4), b64u (b1 % 4 * 16)]
    rw [(b64_char_facts _ h1).1, (b64_char_facts _ h2).1]
    simp only [dropEq]
    rw [List.filter_cons, if_pos (b64_char_facts _ h1).2,
      List.filter_cons, if_pos (b64_char_facts _ h2).2,
      List.filter_cons, if_neg (by decide), List.filter_cons, if_neg (by decide)]
    rfl
  | [b1, b2], h => by
    have hb1 : b1 < 256 := h b1 (by simp)
    have hb2 : b2 < 256 := h b2 (by simp)
    have h1 : b1 / 4 < 64 := by omega
    have h2 : b1 % 4 * 16 + b2 / 16 < 64 := by omega
    have h3 : b2 % 16 * 4 < 64 := by omega
    show dropEq [subSlash (subPlus (b64c (b1 / 4))),
      subSlash (subPlus (b64c (b1 % 4 * 16 + b2 / 16))),
      subSlash (subPlus (b64c (b2 % 16 * 4))), subSlash (subPlus '=')] =
        [b64u (b1 / 4), b64u (b1 % 4 * 16 + b2 / 16), b64u (b2 % 16 * 4)]
    rw [(b64_char_facts _ h1).1, (b64_char_facts _ h2).1, (b64_char_facts _ h3).1]
    simp only [dropEq]
    rw [List.filter_cons, if_pos (b64_char_facts _ h1).2,
      List.filter_cons, if_pos (b64_char_facts _ h2).2,
      List.filter_cons, if_pos (b64_char_facts _ h3).2,
      List.filter_cons, if_neg (by decide)]
    rfl
  | b1 :: b2 :: b3 :: rest, h => by
    have hb1 : b1 < 256 := h b1 (by simp)
    have hb2 : b2 < 256 := h b2 (by simp)
    have hb3 : b3 < 256 := h b3 (by simp)
    have h1 : b1 / 4 < 64 := by omega
    have h2 : b1 % 4 * 16 + b2 / 16 < 64 := by omega
    have h3 : b2 % 16 * 4 + b3 / 64 < 64 := by omega
    have h4 : b3 % 64 < 64 := by omega
    have ih := b64_pipeline_eq rest (fun b hb => h b (by simp [hb]))
    show dropEq (subSlash (subPlus (b64c (b1 / 4))) ::
      subSlash (subPlus (b64c (b1 % 4 * 16 + b2 / 16))) ::
      subSlash (subPlus (b64c (b2 % 16 * 4 + b3 / 64))) ::
      subSlash (subPlus (b64c (b3 % 64))) ::
      List.map subSlash (List.map subPlus (btoaBytes rest))) =
        b64u (b1 / 4) :: b64u (b1 % 4 * 16 + b2 / 16) ::
          b64u (b2 % 16 * 4 + b3 / 64) :: b64u (b3 % 64) :: base64urlSpec rest
    rw [(b64_char_facts _ h1).1, (b64_char_facts _ h2).1, (b64_char_facts _ h3).1,
      (b64_char_facts _ h4).1]
    simp only [dropEq]
    rw [List.filter_cons, if_pos (b64_char_facts _ h1).2,
      List.filter_cons, if_pos (b64_char_facts _ h2).2,
      List.filter_cons, if_pos (b64_char_facts _ h3).2,
      List.filter_cons, if_pos (b64_char_facts _ h4).2]
    simp only [dropEq] at ih
    rw [ih]

/-- C2: for any digest primitive whose output is a byte sequence,
`generateCodeChallenge` returns exactly the base64url encoding (RFC 4648
URL-safe alphabet, no padding) of the digest of the UTF-8 encoding of the
verifier; with `digest` instantiated by SHA-256 this is the claimed
challenge derivation. -/
theorem claim_C2 (digest : List Nat → List Nat) (verifier : String)
    (h : ∀ b ∈ digest (utf8Bytes verifier), b < 256) :
    generateCodeChallenge digest verifier =
      String.mk (base64urlSpec (digest (utf8Bytes verifier))) := by
  unfold generateCodeChallenge
  exact congrArg String.mk (b64_pipeline_eq _ h)

theorem claim_C2_witness :
    generateCodeChallenge (fun _ => [0, 1, 250, 77]) "any-verifier" =
      String.mk (base64urlSpec [0, 1, 250, 77]) :=
  claim_C2 (fun _ => [0, 1, 250, 77]) "any-verifier" (by decide)

theorem handleInput_single (n ft t : Nat) (s : List Nat) :
    handleInput ⟨[(n, ft)], some n, n + 1, s⟩ t =
      ⟨[(n + 1, t + saveDebounceDelay)], some (n + 1), n + 2,
        s ++ if ft < t then [ft] else []⟩ := by
  unfold handleInput fireDue
  by_cases hft : ft < t
  · simp [hft]
  · simp [hft]

theorem runFrom_spec : ∀ (ts : List Nat) (t n : Nat) (s : List Nat),
    ts.foldl handleInput ⟨[(n, t + saveDebounceDelay)], some n, n + 1, s⟩ =
      ⟨[(n + ts.length, ts.getLastD t + saveDebounceDelay)], some (n + ts.length),
        n + ts.length + 1, s ++ firedTimes (t :: ts)⟩ := by
  intro ts
  induction ts with
  | nil =>
    intro t n s
    simp [firedTimes]
  | cons t2 ts ih =>
    intro t n s
    rw [List.foldl_cons, handleInput_single, ih]
    have harith : n + 1 + ts.length = n + (t2 :: ts).length := by simp; omega
    have hlast : (t2 :: ts).getLastD t = ts.getLastD t2 := List.getLastD_cons t t2 ts
    have hfired : firedTimes (t :: t2 :: ts) =
        (if t + saveDebounceDelay < t2 then [t + saveDebounceDelay] else []) ++
          firedTimes (t2 :: ts) := rfl
    rw [hfired, hlast, harith]
    simp [List.append_assoc]

theorem processInputs_cons (t : Nat) (ts : List Nat) :
    processInputs (t :: ts) =
      ⟨[(ts.length, ts.getLastD t + saveDebounceDelay)], some ts.length, ts.length + 1,
        firedTimes (t :: ts)⟩ := by
  unfold processInputs
  rw [List.foldl_cons]
  have h0 : handleInput initTimers t = ⟨[(0, t + saveDebounceDelay)], some 0, 1, []⟩ := rfl
  rw [h0, runFrom_spec ts t 0 []]
  simp

theorem processInputs_timers_len (ts : List Nat) : (processInputs ts).timers.length ≤ 1 := by
  cases ts with
  | nil => simp [processInputs, initTimers]
  | cons t ts =>
    rw [processInputs_cons]
    simp

theorem firedTimes_quiet : ∀ (ts : List Nat), List.Sorted (· ≤ ·) ts →
    ∀ f ∈ firedTimes ts, ∃ ti ∈ ts, f = ti + saveDebounceDelay ∧
      ∀ t2 ∈ ts, t2 ≤ ti ∨ f ≤ t2
  | [], _, f, hf => by simp [firedTimes] at hf
  | [t], _, f, hf => by simp [firedTimes] at hf
  | t1 :: t2 :: rest, hs, f, hf => by
    have hs1 : ∀ x ∈ t2 :: rest, t1 ≤ x := (List.sorted_cons.mp hs).1
    have hs2 : List.Sorted (· ≤ ·) (t2 :: rest) := (List.sorted_cons.mp hs).2
    have hstep : firedTimes (t1 :: t2 :: rest) =
        (if t1 + saveDebounceDelay < t2 then [t1 + saveDebounceDelay] else []) ++
          firedTimes (t2 :: rest) := rfl
    rw [hstep, List.mem_append] at hf
    rcases hf with hf | hf
    · by_cases hlt : t1 + saveDebounceDelay < t2
      · rw [if_pos hlt] at hf
        simp only [List.mem_singleton] at hf
        subst hf
        refine ⟨t1, by simp, rfl, ?_⟩
        intro x hx
        rcases List.mem_cons.mp hx with hx1 | hx2
        · exact Or.inl (Nat.le_of_eq hx1)
        · right
          have ht2x : t2 ≤ x := by
            rcases List.mem_cons.mp hx2 with hx3 | hx3
            · exact Nat.le_of_eq hx3.symm
            · exact (List.sorted_cons.mp hs2).1 x hx3
          omega
      · rw [if_neg hlt] at hf
        simp at hf
    · obtain ⟨ti, hti, hfe, hq⟩ := firedTimes_quiet (t2 :: rest) hs2 f hf
      refine ⟨ti, List.mem_cons_of_mem _ hti, hfe, ?_⟩
      intro x hx
      rcases List.mem_cons.mp hx with hx1 | hx2
      · subst hx1
        exact Or.inl (hs1 ti hti)
      · exact hq x hx2

/-- C6: every input event cancels the pending auto-save timer and
schedules exactly one save timer for 500 ms later — at most one save timer
is ever pending, after inputs the single pending timer fires at the last
input time plus 500 ms — and, for inputs at nondecreasing clock times,
every auto-save that fires does so 500 ms after some input with no further
input occurring strictly inside that 500 ms window. -/
theorem claim_C6 (t : Nat) (ts : List Nat) :
    (processInputs ts).timers.length ≤ 1 ∧
    processInputs (t :: ts) =
      ⟨[(ts.length, ts.getLastD t + saveDebounceDelay)], some ts.length, ts.length + 1,
        firedTimes (t :: ts)⟩ ∧
    (List.Sorted (· ≤ ·) (t :: ts) →
      ∀ f ∈ (processInputs (t :: ts)).saves, ∃ ti ∈ t :: ts,
        f = ti + saveDebounceDelay ∧ ∀ t2 ∈ t :: ts, t2 ≤ ti ∨ f ≤ t2) := by
  refine ⟨processInputs_timers_len ts, processInputs_cons t ts, ?_⟩
  intro hs f hf
  rw [processInputs_cons] at hf
  exact firedTimes_quiet (t :: ts) hs f hf

theorem claim_C6_witness :
    (processInputs [100, 800]).timers.length ≤ 1 ∧
    (∃ ti ∈ [100, 800], (600 : Nat) = ti + saveDebounceDelay ∧
      ∀ t2 ∈ [100, 800], t2 ≤ ti ∨ 600 ≤ t2) :=
  ⟨(claim_C6 0 [100, 800]).1,
    (claim_C6 100 [800]).2.2 (by decide) 600 (by decide)⟩
